import Mathlib

/-!
Verification development for the My-Board slide annotation app.

The definitions below are a shallow embedding of the TypeScript source:
`src/App.tsx` (slide deck, drawings, per-slide undo/redo history) and
`src/components/CanvasLayer.tsx` (stroke pipeline, selection engine,
laser trail).  Every definition is translated from the source; line
numbers in doc comments refer to the source files.
-/

namespace MyBoard

/-! ## Data model (src/types.ts, src/App.tsx) -/

/-- The `Slide` (types.ts 1-6). -/
structure Slide where
  id : String
  imageUrl : String
  thumbnailUrl : Option String := none
  title : Option String := none
deriving DecidableEq

/-- The `DrawingData` (types.ts 8-11): per-slide saved canvas blob (a data URL). -/
structure DrawingData where
  slideId : String
  dataUrl : String
deriving DecidableEq

/-- The `HistoryState` (App.tsx 23-26). -/
structure HistoryState where
  past : List String
  future : List String
deriving DecidableEq

/-- The App state relevant to the claims (App.tsx 30-44).  `history` models the
JS `Record<SlideID, HistoryState>` as an association list. -/
structure AppState where
  slides : List Slide
  currentSlideIndex : Nat
  drawings : List DrawingData
  history : List (String × HistoryState)
deriving DecidableEq

/-- Key lookup in the history record. -/
def histLookup (h : List (String × HistoryState)) (id : String) : Option HistoryState :=
  (h.find? (fun p => p.1 == id)).map (fun p => p.2)

/-- Key update in the history record (`{ ...prev, [id]: v }`). -/
def histInsert (h : List (String × HistoryState)) (id : String) (v : HistoryState) :
    List (String × HistoryState) :=
  (h.filter (fun p => p.1 != id)) ++ [(id, v)]

/-- The `drawings.find(d => d.slideId === id)?.dataUrl` (App.tsx 198, 236, 266, 290). -/
def currentBlob (s : AppState) (id : String) : Option String :=
  (s.drawings.find? (fun d => d.slideId == id)).map DrawingData.dataUrl

/-- The same read collapsed through the JS falsy coercions (the source reads
the data URL with a logical-or fallback): a missing entry and the empty
string both become `""`, the blank-slide sentinel. -/
def currentBlobStr (s : AppState) (id : String) : String :=
  match currentBlob s id with
  | none => ""
  | some d => d

/-! ## History manager operations (App.tsx) -/

/-- The `handleSaveDrawing` (App.tsx 196-227).  Pushes the previous blob onto
`past` (blank represented by `""`), caps `past` at 20 by a single `shift`,
clears `future`, and stores the new blob.  The asynchronous thumbnail
regeneration only touches `thumbnailUrl` and is not modelled.  The source
indexes `slides[currentSlideIndex]` directly; an out-of-range index (which no
caller produces) is modelled as a no-op. -/
def handleSaveDrawing (s : AppState) (newDataUrl : String) : AppState :=
  match s.slides.get? s.currentSlideIndex with
  | none => s
  | some slide =>
    let currentSlideId := slide.id
    let previousDrawing := currentBlobStr s currentSlideId
    let slideHistory := (histLookup s.history currentSlideId).getD ⟨[], []⟩
    let newPast0 := slideHistory.past ++ [previousDrawing]
    let newPast := if newPast0.length > 20 then newPast0.drop 1 else newPast0
    { s with
      history := histInsert s.history currentSlideId ⟨newPast, []⟩
      drawings := (s.drawings.filter (fun d => d.slideId != currentSlideId))
        ++ [⟨currentSlideId, newDataUrl⟩] }

/-- The `handleUndo` (App.tsx 229-257). -/
def handleUndo (s : AppState) : AppState :=
  match s.slides.get? s.currentSlideIndex with
  | none => s
  | some slide =>
    let id := slide.id
    match histLookup s.history id with
    | none => s
    | some sh =>
      if sh.past.isEmpty then s
      else
        let previousState := (sh.past.getLast?).getD ""
        let currentState := currentBlobStr s id
        let filtered := s.drawings.filter (fun d => d.slideId != id)
        { s with
          history := histInsert s.history id ⟨sh.past.dropLast, currentState :: sh.future⟩
          drawings := if previousState == "" then filtered
            else filtered ++ [⟨id, previousState⟩] }

/-- The `handleRedo` (App.tsx 259-286). -/
def handleRedo (s : AppState) : AppState :=
  match s.slides.get? s.currentSlideIndex with
  | none => s
  | some slide =>
    let id := slide.id
    match histLookup s.history id with
    | none => s
    | some sh =>
      match sh.future with
      | [] => s
      | nextState :: rest =>
        let currentState := currentBlobStr s id
        let filtered := s.drawings.filter (fun d => d.slideId != id)
        { s with
          history := histInsert s.history id ⟨sh.past ++ [currentState], rest⟩
          drawings := if nextState == "" then filtered
            else filtered ++ [⟨id, nextState⟩] }

/-- The `handleClearSlide` (App.tsx 288-310).  Note: unlike `handleSaveDrawing`,
the push onto `past` here has no 20-entry cap. -/
def handleClearSlide (s : AppState) : AppState :=
  match s.slides.get? s.currentSlideIndex with
  | none => s
  | some slide =>
    let id := slide.id
    let currentDrawing := currentBlobStr s id
    if currentDrawing == "" then s
    else
      let sh := (histLookup s.history id).getD ⟨[], []⟩
      { s with
        history := histInsert s.history id ⟨sh.past ++ [currentDrawing], []⟩
        drawings := s.drawings.filter (fun d => d.slideId != id)
        slides := s.slides.map (fun sl =>
          if sl.id == id then { sl with thumbnailUrl := none } else sl) }

/-- A sequence of committing gestures on the current slide: each gesture ends
in `onSave` = `handleSaveDrawing` with the rasterized blob. -/
def appSaves (s : AppState) (bs : List String) : AppState :=
  bs.foldl handleSaveDrawing s

/-! ## Per-slide view of the history manager

`handleSaveDrawing` / `handleUndo` / `handleRedo` read and write, for the
current slide id, exactly three things: the current blob (through the falsy
coercion collapsing a missing entry and `""`), the `past` stack and the
`future` stack.  `SlideHist` is that visible state and the `simple*`
functions are the per-slide actions of the handlers on it; the `proj_*`
lemmas below prove the correspondence against the full embedding. -/

structure SlideHist where
  cur : String
  past : List String
  future : List String
deriving DecidableEq

/-- The per-slide view of an `AppState`. -/
def proj (s : AppState) (id : String) : SlideHist :=
  let sh := (histLookup s.history id).getD ⟨[], []⟩
  ⟨currentBlobStr s id, sh.past, sh.future⟩

/-- Per-slide action of `handleSaveDrawing`. -/
def simpleSave (h : SlideHist) (b : String) : SlideHist :=
  let p := h.past ++ [h.cur]
  ⟨b, if p.length > 20 then p.drop 1 else p, []⟩

/-- Per-slide action of `handleUndo`. -/
def simpleUndo (h : SlideHist) : SlideHist :=
  if h.past.isEmpty then h
  else ⟨(h.past.getLast?).getD "", h.past.dropLast, h.cur :: h.future⟩

/-- Per-slide action of `handleRedo`. -/
def simpleRedo (h : SlideHist) : SlideHist :=
  match h.future with
  | [] => h
  | n :: rest => ⟨n, h.past ++ [h.cur], rest⟩

lemma histLookup_histInsert (h : List (String × HistoryState)) (id : String)
    (v : HistoryState) : histLookup (histInsert h id v) id = some v := by
  unfold histLookup histInsert
  rw [List.find?_append]
  have hnone : (h.filter (fun p => p.1 != id)).find? (fun p => p.1 == id) = none := by
    rw [List.find?_eq_none]
    intro p hp
    have := List.of_mem_filter hp
    simpa using this
  simp [hnone]

lemma find?_filter_append (l : List DrawingData) (id : String) (d : DrawingData)
    (hd : d.slideId = id) :
    ((l.filter (fun x => x.slideId != id)) ++ [d]).find? (fun x => x.slideId == id)
      = some d := by
  rw [List.find?_append]
  have hnone : (l.filter (fun x => x.slideId != id)).find? (fun x => x.slideId == id)
      = none := by
    rw [List.find?_eq_none]
    intro x hx
    have := List.of_mem_filter hx
    simpa using this
  simp [hnone, hd]

lemma find?_filter_self (l : List DrawingData) (id : String) :
    (l.filter (fun x => x.slideId != id)).find? (fun x => x.slideId == id) = none := by
  rw [List.find?_eq_none]
  intro x hx
  have := List.of_mem_filter hx
  simpa using this

/-- The `handleSaveDrawing` only rewrites `drawings` and `history`. -/
lemma handleSaveDrawing_nav (s : AppState) (b : String) :
    (handleSaveDrawing s b).slides = s.slides ∧
      (handleSaveDrawing s b).currentSlideIndex = s.currentSlideIndex := by
  unfold handleSaveDrawing
  cases s.slides.get? s.currentSlideIndex <;> simp

/-- The `handleUndo` only rewrites `drawings` and `history`. -/
lemma handleUndo_nav (s : AppState) :
    (handleUndo s).slides = s.slides ∧
      (handleUndo s).currentSlideIndex = s.currentSlideIndex := by
  unfold handleUndo
  cases hs : s.slides.get? s.currentSlideIndex with
  | none => simp
  | some sl =>
    cases hh : histLookup s.history sl.id with
    | none => simp [hh]
    | some sh =>
      by_cases hp : sh.past.isEmpty <;> simp [hh, hp]

/-- The `handleRedo` only rewrites `drawings` and `history`. -/
lemma handleRedo_nav (s : AppState) :
    (handleRedo s).slides = s.slides ∧
      (handleRedo s).currentSlideIndex = s.currentSlideIndex := by
  unfold handleRedo
  cases hs : s.slides.get? s.currentSlideIndex with
  | none => simp
  | some sl =>
    cases hh : histLookup s.history sl.id with
    | none => simp [hh]
    | some sh =>
      cases hf : sh.future <;> simp [hh, hf]

/-- Action of `handleSaveDrawing` on the per-slide view. -/
lemma proj_save (s : AppState) (b : String) (sl : Slide)
    (h : s.slides.get? s.currentSlideIndex = some sl) :
    proj (handleSaveDrawing s b) sl.id = simpleSave (proj s sl.id) b := by
  unfold handleSaveDrawing
  rw [h]
  unfold proj simpleSave currentBlobStr currentBlob
  simp only [histLookup_histInsert, find?_filter_append s.drawings sl.id ⟨sl.id, b⟩ rfl]
  rfl

/-- Action of `handleUndo` on the per-slide view. -/
lemma proj_undo (s : AppState) (sl : Slide)
    (h : s.slides.get? s.currentSlideIndex = some sl) :
    proj (handleUndo s) sl.id = simpleUndo (proj s sl.id) := by
  unfold handleUndo
  rw [h]
  dsimp only
  cases hh : histLookup s.history sl.id with
  | none =>
    unfold proj simpleUndo
    simp [hh]
  | some sh =>
    dsimp only
    by_cases hp : sh.past.isEmpty
    · unfold proj simpleUndo
      simp [hh, hp]
    · rw [if_neg hp]
      have hrhs : simpleUndo (proj s sl.id)
          = ⟨(sh.past.getLast?).getD "", sh.past.dropLast,
             currentBlobStr s sl.id :: sh.future⟩ := by
        unfold proj simpleUndo
        simp [hh, hp]
      rw [hrhs]
      unfold proj
      simp only [histLookup_histInsert, Option.getD_some, SlideHist.mk.injEq, and_true,
        true_and]
      unfold currentBlobStr currentBlob
      by_cases he : (sh.past.getLast?).getD "" = ""
      · rw [if_pos (by simpa using he)]
        rw [find?_filter_self]
        simp [he]
      · rw [if_neg (by simpa using he)]
        rw [find?_filter_append s.drawings sl.id ⟨sl.id, (sh.past.getLast?).getD ""⟩ rfl]
        simp

/-- Action of `handleRedo` on the per-slide view. -/
lemma proj_redo (s : AppState) (sl : Slide)
    (h : s.slides.get? s.currentSlideIndex = some sl) :
    proj (handleRedo s) sl.id = simpleRedo (proj s sl.id) := by
  unfold handleRedo
  rw [h]
  dsimp only
  cases hh : histLookup s.history sl.id with
  | none =>
    unfold proj simpleRedo
    simp [hh]
  | some sh =>
    dsimp only
    cases hf : sh.future with
    | nil =>
      unfold proj simpleRedo
      simp [hh, hf]
    | cons nextState rest =>
      dsimp only
      have hrhs : simpleRedo (proj s sl.id)
          = ⟨nextState, sh.past ++ [currentBlobStr s sl.id], rest⟩ := by
        unfold proj simpleRedo
        simp [hh, hf]
      rw [hrhs]
      unfold proj
      simp only [histLookup_histInsert, Option.getD_some, SlideHist.mk.injEq, and_true,
        true_and]
      unfold currentBlobStr currentBlob
      by_cases he : nextState = ""
      · rw [if_pos (by simpa using he)]
        rw [find?_filter_self]
        simp [he]
      · rw [if_neg (by simpa using he)]
        rw [find?_filter_append s.drawings sl.id ⟨sl.id, nextState⟩ rfl]
        simp

/-! ## Round-trip lemmas on the per-slide view -/

lemma simpleRedo_simpleUndo (h : SlideHist) (hp : h.past ≠ []) :
    simpleRedo (simpleUndo h) = h := by
  obtain hnil | ⟨l, a, hla⟩ := h.past.eq_nil_or_concat
  · exact absurd hnil hp
  · unfold simpleUndo simpleRedo
    simp only [hla, List.dropLast_concat, List.getLast?_concat, List.concat_eq_append]
    cases h with
    | mk cur past future =>
      simp_all

lemma simpleUndo_past_empty (h : SlideHist) (hp : h.past = []) : simpleUndo h = h := by
  unfold simpleUndo
  simp [hp]

lemma simpleRedo_future_empty (h : SlideHist) (hf : h.future = []) : simpleRedo h = h := by
  unfold simpleRedo
  simp [hf]

lemma simpleUndo_iterate_past_empty (n : Nat) (h : SlideHist) (hp : h.past = []) :
    simpleUndo^[n] h = h := by
  induction n with
  | zero => rfl
  | succ n ih =>
    rw [Function.iterate_succ_apply, simpleUndo_past_empty h hp, ih]

lemma simpleRedo_iterate_future_empty (n : Nat) (h : SlideHist) (hf : h.future = []) :
    simpleRedo^[n] h = h := by
  induction n with
  | zero => rfl
  | succ n ih =>
    rw [Function.iterate_succ_apply, simpleRedo_future_empty h hf, ih]

lemma simpleUndo_past_length (h : SlideHist) :
    (simpleUndo h).past.length = h.past.length - 1 := by
  unfold simpleUndo
  by_cases hp : h.past.isEmpty
  · have : h.past = [] := by simpa using hp
    simp [hp, this]
  · simp [hp, List.length_dropLast]

lemma simpleUndo_iterate_past_length (n : Nat) (h : SlideHist) :
    (simpleUndo^[n] h).past.length = h.past.length - n := by
  induction n generalizing h with
  | zero => rfl
  | succ n ih =>
    rw [Function.iterate_succ_apply, ih, simpleUndo_past_length]
    omega

/-- Each undo is exactly inverted by a redo, as long as there is enough `past`. -/
lemma simple_round_trip_le (n : Nat) (h : SlideHist) (hn : n ≤ h.past.length) :
    simpleRedo^[n] (simpleUndo^[n] h) = h := by
  induction n generalizing h with
  | zero => rfl
  | succ n ih =>
    have hp : h.past ≠ [] := by
      intro hnil
      rw [hnil] at hn
      simp at hn
    have hlen : n ≤ (simpleUndo h).past.length := by
      rw [simpleUndo_past_length]
      omega
    have e1 : simpleUndo^[n + 1] h = simpleUndo^[n] (simpleUndo h) :=
      Function.iterate_succ_apply _ _ _
    have e2 : simpleRedo^[n + 1] (simpleUndo^[n] (simpleUndo h))
        = simpleRedo (simpleRedo^[n] (simpleUndo^[n] (simpleUndo h))) :=
      Function.iterate_succ_apply' _ _ _
    rw [e1, e2, ih (simpleUndo h) hlen, simpleRedo_simpleUndo h hp]

/-- The `n` undos followed by `n` redos restore the per-slide state exactly,
for every `n`: once `past` is exhausted the extra undos are no-ops, and the
matching extra redos are then no-ops as well (given an empty `future`). -/
lemma simple_round_trip (n : Nat) (h : SlideHist) (hf : h.future = []) :
    simpleRedo^[n] (simpleUndo^[n] h) = h := by
  by_cases hn : n ≤ h.past.length
  · exact simple_round_trip_le n h hn
  · have hk : n = (n - h.past.length) + h.past.length := by omega
    rw [hk, Function.iterate_add_apply, Function.iterate_add_apply,
      simpleUndo_iterate_past_empty (n - h.past.length) _ (by
        have := simpleUndo_iterate_past_length h.past.length h
        rwa [Nat.sub_self, List.length_eq_zero] at this),
      simple_round_trip_le h.past.length h le_rfl,
      simpleRedo_iterate_future_empty _ _ hf]

/-- After at least one save the per-slide `future` stack is empty. -/
lemma simpleSave_foldl_future (h : SlideHist) (bs : List String) (hbs : bs ≠ []) :
    (bs.foldl simpleSave h).future = [] := by
  induction bs generalizing h with
  | nil => exact absurd rfl hbs
  | cons b rest ih =>
    cases rest with
    | nil => rfl
    | cons c cs => exact ih (simpleSave h b) (by simp)

/-! ## Lifting the per-slide lemmas to the App state -/

/-- The current slide stays fixed through the history operations. -/
def Nav (s : AppState) (sl : Slide) : Prop :=
  s.slides.get? s.currentSlideIndex = some sl

lemma nav_save (s : AppState) (b : String) (sl : Slide) (h : Nav s sl) :
    Nav (handleSaveDrawing s b) sl := by
  unfold Nav at *
  rw [(handleSaveDrawing_nav s b).1, (handleSaveDrawing_nav s b).2]
  exact h

lemma nav_undo (s : AppState) (sl : Slide) (h : Nav s sl) : Nav (handleUndo s) sl := by
  unfold Nav at *
  rw [(handleUndo_nav s).1, (handleUndo_nav s).2]
  exact h

lemma nav_redo (s : AppState) (sl : Slide) (h : Nav s sl) : Nav (handleRedo s) sl := by
  unfold Nav at *
  rw [(handleRedo_nav s).1, (handleRedo_nav s).2]
  exact h

lemma nav_appSaves (s : AppState) (bs : List String) (sl : Slide) (h : Nav s sl) :
    Nav (appSaves s bs) sl := by
  induction bs generalizing s with
  | nil => exact h
  | cons b rest ih => exact ih (handleSaveDrawing s b) (nav_save s b sl h)

lemma proj_appSaves (s : AppState) (bs : List String) (sl : Slide) (h : Nav s sl) :
    proj (appSaves s bs) sl.id = bs.foldl simpleSave (proj s sl.id) := by
  induction bs generalizing s with
  | nil => rfl
  | cons b rest ih =>
    show proj (appSaves (handleSaveDrawing s b) rest) sl.id = _
    rw [ih (handleSaveDrawing s b) (nav_save s b sl h)]
    rw [show (b :: rest).foldl simpleSave (proj s sl.id)
        = rest.foldl simpleSave (simpleSave (proj s sl.id) b) from rfl]
    rw [proj_save s b sl h]

lemma nav_undo_iterate (n : Nat) (s : AppState) (sl : Slide) (h : Nav s sl) :
    Nav (handleUndo^[n] s) sl := by
  induction n generalizing s with
  | zero => exact h
  | succ n ih =>
    rw [Function.iterate_succ_apply]
    exact ih (handleUndo s) (nav_undo s sl h)

lemma proj_undo_iterate (n : Nat) (s : AppState) (sl : Slide) (h : Nav s sl) :
    proj (handleUndo^[n] s) sl.id = simpleUndo^[n] (proj s sl.id) := by
  induction n generalizing s with
  | zero => rfl
  | succ n ih =>
    rw [Function.iterate_succ_apply, Function.iterate_succ_apply]
    rw [ih (handleUndo s) (nav_undo s sl h), proj_undo s sl h]

lemma proj_redo_iterate (n : Nat) (s : AppState) (sl : Slide) (h : Nav s sl) :
    proj (handleRedo^[n] s) sl.id = simpleRedo^[n] (proj s sl.id) := by
  induction n generalizing s with
  | zero => rfl
  | succ n ih =>
    rw [Function.iterate_succ_apply, Function.iterate_succ_apply]
    rw [ih (handleRedo s) (nav_redo s sl h), proj_redo s sl h]

/-! ## C1, C2, C3 -/

/-- C1.  Undo/redo round trip: starting from any app state whose current slide
is `sl`, after any sequence `bs` of committing gestures (each ending in
`handleSaveDrawing`), applying `handleUndo` `bs.length` times and then
`handleRedo` `bs.length` times restores the per-slide state — in particular
the current drawing blob `currentBlobStr`, byte for byte — exactly to what it
was immediately after the last gesture. -/
theorem undo_redo_round_trip (s : AppState) (bs : List String) (sl : Slide)
    (h : s.slides.get? s.currentSlideIndex = some sl) :
    proj (handleRedo^[bs.length] (handleUndo^[bs.length] (appSaves s bs))) sl.id
      = proj (appSaves s bs) sl.id := by
  have hnav : Nav (appSaves s bs) sl := nav_appSaves s bs sl h
  rw [proj_redo_iterate bs.length _ sl
    (nav_undo_iterate bs.length (appSaves s bs) sl hnav)]
  rw [proj_undo_iterate bs.length _ sl hnav]
  rcases bs with _ | ⟨b, rest⟩
  · rfl
  · refine simple_round_trip _ _ ?_
    rw [proj_appSaves s (b :: rest) sl h]
    exact simpleSave_foldl_future _ _ (by simp)

/-- Demo slide and app state used to instantiate the hypothesised theorems. -/
def demoSlide : Slide := { id := "1", imageUrl := "img" }

def demoState : AppState :=
  { slides := [demoSlide], currentSlideIndex := 0, drawings := [], history := [] }

/-- Witness for C1: two gestures, two undos, two redos on a concrete state. -/
theorem undo_redo_round_trip_witness :
    demoState.slides.get? demoState.currentSlideIndex = some demoSlide ∧
    proj (handleRedo^[2] (handleUndo^[2] (appSaves demoState ["a", "b"]))) demoSlide.id
      = proj (appSaves demoState ["a", "b"]) demoSlide.id :=
  ⟨rfl, undo_redo_round_trip demoState ["a", "b"] demoSlide rfl⟩

/-- The capped push of `handleSaveDrawing` always keeps the pushed element
(the single `shift` evicts from the front). -/
lemma capped_push_getLast? (p : List String) (c : String) :
    (if (p ++ [c]).length > 20 then (p ++ [c]).drop 1 else p ++ [c]).getLast?
      = some c := by
  by_cases hl : (p ++ [c]).length > 20
  · rw [if_pos hl]
    have hp : p ≠ [] := by
      intro hnil
      rw [hnil] at hl
      simp at hl
    obtain ⟨a, p2, rfl⟩ := List.exists_cons_of_ne_nil hp
    rw [show ((a :: p2) ++ [c]).drop 1 = p2 ++ [c] from rfl]
    exact List.getLast?_concat _
  · rw [if_neg hl]
    exact List.getLast?_concat _

/-- C3.  Checkpoint recording: `handleSaveDrawing` pushes the previous current
blob (the sentinel `""` when the slide was blank) onto `past` — it is the last
element of the new `past` —, clears `future`, and makes the new blob current.
Since every committing gesture ends in `handleSaveDrawing`, `future` is empty
after any new committing gesture, including one performed right after an undo:
the statement holds for every reachable state `s`. -/
theorem save_checkpoint_semantics (s : AppState) (b : String) (sl : Slide)
    (h : s.slides.get? s.currentSlideIndex = some sl) :
    ((histLookup (handleSaveDrawing s b).history sl.id).getD ⟨[], []⟩).future = [] ∧
    ((histLookup (handleSaveDrawing s b).history sl.id).getD ⟨[], []⟩).past.getLast?
      = some (currentBlobStr s sl.id) ∧
    currentBlobStr (handleSaveDrawing s b) sl.id = b := by
  have hp := proj_save s b sl h
  refine ⟨?_, ?_, ?_⟩
  · show (proj (handleSaveDrawing s b) sl.id).future = []
    rw [hp]
    rfl
  · show (proj (handleSaveDrawing s b) sl.id).past.getLast? = some (currentBlobStr s sl.id)
    rw [hp]
    exact capped_push_getLast? (proj s sl.id).past (proj s sl.id).cur
  · show (proj (handleSaveDrawing s b) sl.id).cur = b
    rw [hp]
    rfl

/-- Witness for C3 at a concrete state. -/
theorem save_checkpoint_semantics_witness :
    demoState.slides.get? demoState.currentSlideIndex = some demoSlide ∧
    (((histLookup (handleSaveDrawing demoState "x").history demoSlide.id).getD
        ⟨[], []⟩).future = [] ∧
      ((histLookup (handleSaveDrawing demoState "x").history demoSlide.id).getD
        ⟨[], []⟩).past.getLast? = some (currentBlobStr demoState demoSlide.id) ∧
      currentBlobStr (handleSaveDrawing demoState "x") demoSlide.id = "x") :=
  ⟨rfl, save_checkpoint_semantics demoState "x" demoSlide rfl⟩

/-- A list of 21 distinct non-blank blobs used to drive the history to its cap. -/
def overflowBlobs : List String := (List.range 21).map (fun i => toString (i + 1))

/-- C2 (failing input).  After 21 committing gestures on the demo slide the
`past` stack holds exactly 20 entries — `handleSaveDrawing` enforces the cap —
but one `handleClearSlide` then pushes a 21st entry: its push onto `past`
(App.tsx 300) has no cap, so `past.length ≤ 20` is violated and repeated
clear/save cycles grow the stack without bound. -/
theorem clear_slide_overflows_history_cap :
    ((histLookup (appSaves demoState overflowBlobs).history "1").getD
      ⟨[], []⟩).past.length = 20 ∧
    ((histLookup (handleClearSlide (appSaves demoState overflowBlobs)).history "1").getD
      ⟨[], []⟩).past.length = 21 := by
  constructor
  · rfl
  · rfl

/-! ## Slide-deck operations (App.tsx 93-152) -/

/-- The `BLANK_SLIDE_IMAGE` (App.tsx 21). -/
def BLANK_SLIDE_IMAGE : String :=
  "data:image/png;base64,iVBORw0KGgoAAAANSUhEUgAAAAEAAAABCAQAAAC1HAwCAAAAC0lEQVR42mNkYAAAAAYAAjCB0C8AAAAASUVORK5CYII="

/-- JS `Array.prototype.findIndex` (a missing element, JS `-1`, is `none`). -/
def findIndex (p : Slide → Bool) : List Slide → Option Nat
  | [] => none
  | x :: xs => if p x then some 0 else (findIndex p xs).map (· + 1)

/-- The `handleAddSlide` (App.tsx 109-118): append a blank slide and jump to it.
`now` stands for `Date.now()`. -/
def handleAddSlide (s : AppState) (now : Nat) : AppState :=
  let newSlide : Slide :=
    { id := "slide-" ++ toString now
      imageUrl := BLANK_SLIDE_IMAGE
      title := some ("Slide " ++ toString (s.slides.length + 1)) }
  { s with
    slides := s.slides ++ [newSlide]
    currentSlideIndex := s.slides.length }

/-- The `handleDeleteSlide` (App.tsx 120-152).  A deck of one slide refuses the
delete (only a notification is shown — not modelled — and the state is
untouched); otherwise the slide, its drawings and its history entry are
removed and the current index adjusted. -/
def handleDeleteSlide (s : AppState) (id : String) : AppState :=
  if s.slides.length ≤ 1 then s
  else
    match findIndex (fun sl => sl.id == id) s.slides with
    | none => s
    | some indexToDelete =>
      let newSlides := s.slides.filter (fun sl => sl.id != id)
      let newIndex :=
        if indexToDelete = s.currentSlideIndex then max 0 (indexToDelete - 1)
        else if indexToDelete < s.currentSlideIndex then s.currentSlideIndex - 1
        else s.currentSlideIndex
      { slides := newSlides
        currentSlideIndex := newIndex
        drawings := s.drawings.filter (fun d => d.slideId != id)
        history := s.history.filter (fun p => p.1 != id) }

/-- The `handleNextSlide` (App.tsx 93-97). -/
def handleNextSlide (s : AppState) : AppState :=
  if s.currentSlideIndex < s.slides.length - 1 then
    { s with currentSlideIndex := s.currentSlideIndex + 1 }
  else s

/-- The `handlePrevSlide` (App.tsx 99-103). -/
def handlePrevSlide (s : AppState) : AppState :=
  if 0 < s.currentSlideIndex then
    { s with currentSlideIndex := s.currentSlideIndex - 1 }
  else s

/-- The `handleSlideSelect` (App.tsx 105-107): no validation is performed here;
the only caller, `SlideNavigator`, passes indices produced by
`slides.map((slide, index) => ...)`, hence always in range. -/
def handleSlideSelect (s : AppState) (index : Nat) : AppState :=
  { s with currentSlideIndex := index }

/-! ## C10: deck validity invariant -/

/-- One slide-deck operation. -/
inductive DeckOp where
  | add (now : Nat)
  | delete (id : String)
  | select (index : Nat)
  | next
  | prev

def deckStep (s : AppState) : DeckOp → AppState
  | .add now => handleAddSlide s now
  | .delete id => handleDeleteSlide s id
  | .select i => handleSlideSelect s i
  | .next => handleNextSlide s
  | .prev => handlePrevSlide s

def slideIds (s : AppState) : List String := s.slides.map Slide.id

/-- Deck validity: a non-empty deck, an in-range current index, and distinct
slide ids (ids are minted from distinct timestamps or upload/page counters). -/
def DeckInv (s : AppState) : Prop :=
  s.slides ≠ [] ∧ s.currentSlideIndex < s.slides.length ∧ (slideIds s).Nodup

/-- What the environment guarantees for an operation: `Date.now()` mints a
fresh id for add, and `SlideNavigator` only selects indices of the deck. -/
def DeckOpOK (s : AppState) : DeckOp → Prop
  | .add now => ("slide-" ++ toString now) ∉ slideIds s
  | .select i => i < s.slides.length
  | _ => True

lemma findIndex_some (p : Slide → Bool) (l : List Slide) (i : Nat)
    (h : findIndex p l = some i) :
    i < l.length ∧ ∃ x ∈ l, l.get? i = some x ∧ p x := by
  induction l generalizing i with
  | nil => simp [findIndex] at h
  | cons x xs ih =>
    unfold findIndex at h
    by_cases hx : p x
    · rw [if_pos hx] at h
      obtain rfl : (0 : Nat) = i := by simpa using h
      exact ⟨by simp, x, by simp, by simp, hx⟩
    · rw [if_neg hx] at h
      cases hrec : findIndex p xs with
      | none => rw [hrec] at h; simp at h
      | some j =>
        rw [hrec] at h
        obtain rfl : j + 1 = i := by simpa using h
        obtain ⟨hj, y, hy, hget, hpy⟩ := ih j hrec
        exact ⟨by simpa using hj, y, by simp [hy], by simpa using hget, hpy⟩

lemma filter_ne_id_length (l : List Slide) (id : String)
    (hnd : (l.map Slide.id).Nodup) (hmem : id ∈ l.map Slide.id) :
    (l.filter (fun sl => sl.id != id)).length + 1 = l.length := by
  induction l with
  | nil => simp at hmem
  | cons x xs ih =>
    have hnd2 : (xs.map Slide.id).Nodup := (List.nodup_cons.mp (by simpa using hnd)).2
    by_cases hx : x.id = id
    · have hnotin : id ∉ xs.map Slide.id := by
        rw [← hx]
        exact (List.nodup_cons.mp (by simpa using hnd)).1
      have hall : xs.filter (fun sl => sl.id != id) = xs := by
        rw [List.filter_eq_self]
        intro a ha
        simp only [bne_iff_ne, ne_eq, decide_eq_true_eq]
        intro haid
        exact hnotin (by
          rw [← haid]
          exact List.mem_map_of_mem Slide.id ha)
      have hxfalse : (x.id != id) = false := by simp [hx]
      simp [List.filter_cons, hxfalse, hall]
    · have hmem2 : id ∈ xs.map Slide.id := by
        rcases (by simpa using hmem : id = x.id ∨ id ∈ xs.map Slide.id) with h1 | h2
        · exact absurd h1.symm hx
        · exact h2
      have hxtrue : (x.id != id) = true := by simp [hx]
      simp only [List.filter_cons, hxtrue, if_true, List.length_cons]
      rw [← ih hnd2 hmem2]

/-- C10.  Slide-deck validity invariant: every deck operation — add, delete,
select, next, previous — preserves non-emptiness of `slides`, keeps
`currentSlideIndex` strictly below `slides.length`, and keeps slide ids
distinct; moreover a delete issued while only one slide exists returns the
state entirely unchanged (slides, drawings and history included). -/
theorem deck_invariant_preserved (s : AppState) (op : DeckOp)
    (hInv : DeckInv s) (hOp : DeckOpOK s op) :
    DeckInv (deckStep s op) ∧
      (∀ id, s.slides.length ≤ 1 → handleDeleteSlide s id = s) := by
  obtain ⟨hne, hidx, hnd⟩ := hInv
  have hlenpos : 0 < s.slides.length := List.length_pos.mpr hne
  refine ⟨?_, ?_⟩
  · cases op with
    | add now =>
      refine ⟨by simp [deckStep, handleAddSlide], ?_, ?_⟩
      · simp [deckStep, handleAddSlide]
      · show ((s.slides ++ [_]).map Slide.id).Nodup
        rw [List.map_append]
        rw [List.nodup_append]
        refine ⟨hnd, by simp, ?_⟩
        intro a ha hb
        have : a = "slide-" ++ toString now := by simpa using hb
        exact hOp (this ▸ ha)
    | delete id =>
      show DeckInv (handleDeleteSlide s id)
      unfold handleDeleteSlide
      by_cases hlen : s.slides.length ≤ 1
      · rw [if_pos hlen]
        exact ⟨hne, hidx, hnd⟩
      · rw [if_neg hlen]
        cases hfi : findIndex (fun sl => sl.id == id) s.slides with
        | none => exact ⟨hne, hidx, hnd⟩
        | some i =>
          obtain ⟨hi, x, hxmem, hxget, hxp⟩ := findIndex_some _ _ _ hfi
          have hxid : x.id = id := by simpa using hxp
          have hmem : id ∈ s.slides.map Slide.id := by
            rw [← hxid]
            exact List.mem_map_of_mem Slide.id hxmem
          have hflen := filter_ne_id_length s.slides id hnd hmem
          have hndf : ((s.slides.filter (fun sl => sl.id != id)).map Slide.id).Nodup :=
            hnd.sublist (List.Sublist.map Slide.id (List.filter_sublist s.slides))
          refine ⟨?_, ?_, hndf⟩
          · have : 0 < (s.slides.filter (fun sl => sl.id != id)).length := by omega
            exact List.length_pos.mp this
          · show (if i = s.currentSlideIndex then max 0 (i - 1)
                else if i < s.currentSlideIndex then s.currentSlideIndex - 1
                else s.currentSlideIndex)
              < (s.slides.filter (fun sl => sl.id != id)).length
            by_cases h1 : i = s.currentSlideIndex
            · rw [if_pos h1]
              omega
            · rw [if_neg h1]
              by_cases h2 : i < s.currentSlideIndex
              · rw [if_pos h2]
                omega
              · rw [if_neg h2]
                omega
    | select i =>
      exact ⟨hne, hOp, hnd⟩
    | next =>
      show DeckInv (handleNextSlide s)
      unfold handleNextSlide
      by_cases hc : s.currentSlideIndex < s.slides.length - 1
      · rw [if_pos hc]
        refine ⟨hne, ?_, hnd⟩
        show s.currentSlideIndex + 1 < s.slides.length
        omega
      · rw [if_neg hc]
        exact ⟨hne, hidx, hnd⟩
    | prev =>
      show DeckInv (handlePrevSlide s)
      unfold handlePrevSlide
      by_cases hc : 0 < s.currentSlideIndex
      · rw [if_pos hc]
        refine ⟨hne, ?_, hnd⟩
        show s.currentSlideIndex - 1 < s.slides.length
        omega
      · rw [if_neg hc]
        exact ⟨hne, hidx, hnd⟩
  · intro id hlen
    unfold handleDeleteSlide
    rw [if_pos hlen]

/-- Witness for C10: adding a slide with a fresh timestamp to the demo deck. -/
theorem deck_invariant_preserved_witness :
    DeckInv demoState ∧ DeckOpOK demoState (DeckOp.add 5) ∧
    (DeckInv (deckStep demoState (DeckOp.add 5)) ∧
      (∀ id, demoState.slides.length ≤ 1 → handleDeleteSlide demoState id = demoState)) :=
  ⟨⟨by decide, by decide, by decide⟩,
    by
      show ("slide-" ++ toString 5) ∉ slideIds demoState
      decide,
    deck_invariant_preserved demoState (DeckOp.add 5)
      ⟨by decide, by decide, by decide⟩
      (by
        show ("slide-" ++ toString 5) ∉ slideIds demoState
        decide)⟩

/-! ## Raster surface model (src/components/CanvasLayer.tsx)

Pixels are RGBA with premultiplied alpha, channels in `0..255`, as stored by
the 2D canvas.  A surface is a pixel function over integer coordinates (CSS
pixels; `devicePixelRatio` is taken as 1, the device-independent resolution of
the spec). -/

structure Pixel where
  r : Nat
  g : Nat
  b : Nat
  a : Nat
deriving DecidableEq

def Pixel.transparent : Pixel := ⟨0, 0, 0, 0⟩

/-- Premultiplied source-over compositing (the canvas default
`globalCompositeOperation`). -/
def Pixel.sourceOver (src dst : Pixel) : Pixel :=
  ⟨src.r + dst.r * (255 - src.a) / 255,
   src.g + dst.g * (255 - src.a) / 255,
   src.b + dst.b * (255 - src.a) / 255,
   src.a + dst.a * (255 - src.a) / 255⟩

/-- The `destination-out` compositing: the destination is kept only where the
source is transparent (this is how the eraser cuts pixels out). -/
def Pixel.destinationOut (src dst : Pixel) : Pixel :=
  ⟨dst.r * (255 - src.a) / 255,
   dst.g * (255 - src.a) / 255,
   dst.b * (255 - src.a) / 255,
   dst.a * (255 - src.a) / 255⟩

/-- The two composite operations the component ever sets (283-307). -/
inductive CompositeOp where
  | sourceOver
  | destinationOut
deriving DecidableEq

def CompositeOp.comp : CompositeOp → Pixel → Pixel → Pixel
  | .sourceOver => Pixel.sourceOver
  | .destinationOut => Pixel.destinationOut

abbrev Surface := Int → Int → Pixel

def inRect (x y w h i j : Int) : Prop :=
  x ≤ i ∧ i < x + w ∧ y ≤ j ∧ j < y + h

instance (x y w h i j : Int) : Decidable (inRect x y w h i j) := by
  unfold inRect
  infer_instance

/-- The `ctx.getImageData(x, y, w, h)`: the region as a bitmap indexed from
`(0, 0)` (the width and height are carried by the caller). -/
def getImageData (s : Surface) (x y : Int) : Surface :=
  fun i j => s (x + i) (y + j)

/-- The `ctx.clearRect(x, y, w, h)`. -/
def clearRect (s : Surface) (x y w h : Int) : Surface :=
  fun i j => if inRect x y w h i j then Pixel.transparent else s i j

/-- Application of `ctx.globalAlpha` to a source pixel: each channel is
scaled by the (non-negative, at most 1) alpha factor, rounded down.  Written
over the numerator and denominator so that it evaluates by `decide`. -/
def scaleAlpha (ga : ℚ) (p : Pixel) : Pixel :=
  ⟨p.r * ga.num.toNat / ga.den, p.g * ga.num.toNat / ga.den,
   p.b * ga.num.toNat / ga.den, p.a * ga.num.toNat / ga.den⟩

/-- The `ctx.drawImage(bmp, x, y)` of a `w × h` bitmap at its natural size,
composited under the current `globalCompositeOperation` and `globalAlpha`. -/
def drawImage (op : CompositeOp) (ga : ℚ) (bmp : Surface) (x y w h : Int)
    (dst : Surface) : Surface :=
  fun i j =>
    if inRect x y w h i j then op.comp (scaleAlpha ga (bmp (i - x) (j - y))) (dst i j)
    else dst i j

/-! ## Persistent context style state -/

inductive PenEffect where
  | normal
  | neon
  | highlighter
deriving DecidableEq

/-- The `PenStyle` (types.ts 26-30); sizes are the integer slider values. -/
structure PenStyle where
  color : String
  size : Nat
  effect : PenEffect
deriving DecidableEq

/-- The `ToolType` (types.ts 13-21). -/
inductive Tool where
  | pen
  | eraser
  | pointer
  | laser
  | shape
  | select
  | text
deriving DecidableEq

/-- The persistent pieces of 2D-context state that `applyContextStyles`
mutates.  The canvas context keeps them between gestures: nothing resets them
when a gesture ends or the tool changes. -/
structure CtxStyle where
  composite : CompositeOp
  globalAlpha : ℚ
  lineWidth : ℚ
  strokeStyle : String
  shadowBlur : Nat
  shadowColor : String
deriving DecidableEq

/-- The context state as initialised (source-over, alpha 1 are the canvas
defaults; 60-77 sets only lineCap/lineJoin). -/
def initialCtx : CtxStyle :=
  { composite := CompositeOp.sourceOver
    globalAlpha := 1
    lineWidth := 1
    strokeStyle := "#000000"
    shadowBlur := 0
    shadowColor := "" }

/-- The `applyContextStyles` (CanvasLayer.tsx 283-307). -/
def applyContextStyles (activeTool : Tool) (penStyle : PenStyle)
    (ctx : CtxStyle) : CtxStyle :=
  let ctx := { ctx with shadowBlur := 0, globalAlpha := 1 }
  if activeTool = Tool.eraser then
    { ctx with composite := CompositeOp.destinationOut, lineWidth := 30 }
  else
    let ctx := { ctx with
      composite := CompositeOp.sourceOver
      strokeStyle := penStyle.color }
    match penStyle.effect with
    | .neon =>
      { ctx with
        lineWidth := (penStyle.size : ℚ)
        shadowBlur := 15
        shadowColor := penStyle.color }
    | .highlighter =>
      { ctx with lineWidth := (penStyle.size : ℚ) * 5, globalAlpha := 2 / 5 }
    | .normal => { ctx with lineWidth := (penStyle.size : ℚ) }

/-! ## Selection engine (CanvasLayer.tsx) -/

/-- The `selectionRef.current` (line 41): the lifted bitmap with its current
placement rectangle. -/
structure Selection where
  canvas : Surface
  x : Int
  y : Int
  w : Int
  h : Int

instance : Inhabited Selection := ⟨⟨fun _ _ => Pixel.transparent, 0, 0, 0, 0⟩⟩

/-- The `redrawScene` (127-149): restore the holed background, then draw the
floating bitmap at its placement.  The dashed outline and the drop-shadow
painted around it are display chrome: every commit first rewinds the canvas
with `putImageData(bgSnapshot)`, so they never reach a committed raster and
no claim observes them; they are not modelled pixel-wise. -/
def redrawScene (ctx : CtxStyle) (bg : Surface) (sel : Selection) : Surface :=
  drawImage ctx.composite ctx.globalAlpha sel.canvas sel.x sel.y sel.w sel.h bg

/-- The `commitSelection` (152-176): `putImageData(bgSnapshot)` (a raw pixel
write, untouched by context state), then `ctx.save(); ctx.shadowBlur = 0;
ctx.drawImage(canvas, x, y); ctx.restore()`.  Only `shadowBlur` is reset —
the persistent `globalCompositeOperation` and `globalAlpha` left on the
context by the previous gesture are in force for the `drawImage`. -/
def commitSelection (ctx : CtxStyle) (bgSnapshot : Surface) (sel : Selection) : Surface :=
  drawImage ctx.composite ctx.globalAlpha sel.canvas sel.x sel.y sel.w sel.h bgSnapshot

/-- The `draw`, SELECT branch with a live selection (412-420): the pointer delta
translates the placement; nothing else about the selection changes. -/
def moveSelection (sel : Selection) (dx dy : Int) : Selection :=
  { sel with x := sel.x + dx, y := sel.y + dy }

/-- Result of releasing the pointer during a selection-creation drag. -/
structure SelectEndResult where
  surface : Surface
  selection : Option Selection
  bgSnapshot : Option Surface
  checkpoint : Option Surface

/-- The `stopDrawing`, SELECT branch with no live selection (533-581), at
`dpr = 1`, faithful to the line-543 guard
`if (startPos.current && lastPos.current && snapshotRef.current)`.  Only when
all three refs are set does the body run: the pre-gesture snapshot is written
back (545), a rectangle under 5 px in either dimension is discarded (557-560),
otherwise the region is captured, cleared, and becomes a floating selection
over the holed background.  When the guard fails, the refs are nulled
(577-579) and nothing else happens: the canvas keeps whatever pixels the last
marquee repaint left.  `stopDrawing` receives no pointer position: the
rectangle end comes from the `lastPos` ref alone — which no code path assigns
during a creation drag (only 368 and 419, both requiring a live selection,
and 385/505 in the pen/eraser/shape path, which 583 nulls at that gesture
end).  Either way this branch returns before the generic `onSave` at 587-590,
so no checkpoint is ever emitted here. -/
def selectCreationEnd (ctx : CtxStyle) (canvas : Surface)
    (startPos lastPos : Option (Int × Int)) (snapshot : Option Surface) :
    SelectEndResult :=
  match startPos, lastPos, snapshot with
  | some startP, some lastP, some snap =>
    let restored := snap
    let x := min startP.1 lastP.1
    let y := min startP.2 lastP.2
    let w := |lastP.1 - startP.1|
    let h := |lastP.2 - startP.2|
    if w < 5 ∨ h < 5 then
      { surface := restored, selection := none, bgSnapshot := none, checkpoint := none }
    else
      let imageData := getImageData restored x y
      let holed := clearRect restored x y w h
      let sel : Selection := ⟨imageData, x, y, w, h⟩
      { surface := redrawScene ctx holed sel
        selection := some sel
        bgSnapshot := some holed
        checkpoint := none }
  | _, _, _ =>
    { surface := canvas, selection := none, bgSnapshot := none, checkpoint := none }

/-- The `coords.x >= x && coords.x <= x + w && coords.y >= y && coords.y <= y + h`
(366): the interior hit-test used to begin a move. -/
def insideSelection (sel : Selection) (c : Int × Int) : Prop :=
  sel.x ≤ c.1 ∧ c.1 ≤ sel.x + sel.w ∧ sel.y ≤ c.2 ∧ c.2 ≤ sel.y + sel.h

instance (sel : Selection) (c : Int × Int) : Decidable (insideSelection sel c) := by
  unfold insideSelection
  infer_instance

/-- What a press with the select tool leads to. -/
inductive SelectMode where
  | moving
  | creating
deriving DecidableEq

/-- Result of `startDrawing` in the SELECT branch. -/
structure SelectPressResult where
  selection : Option Selection
  bgSnapshot : Option Surface
  surface : Surface
  mode : SelectMode
  lastPos : Option (Int × Int)
  startPos : Option (Int × Int)
  checkpoint : Option Surface

/-- The `startDrawing`, SELECT branch (362-382).  With a live selection, a press
inside the placement rectangle starts a move; a press anywhere else commits
the selection (`commitSelection`, which also emits a checkpoint) and then a
new creation drag begins.  With no live selection a creation drag begins
directly.  No other hit-test exists: in particular nothing looks at the
rectangle corners. -/
def selectPress (ctx : CtxStyle) (surface : Surface) (sel? : Option Selection)
    (bg? : Option Surface) (coords : Int × Int) : SelectPressResult :=
  match sel? with
  | some sel =>
    if insideSelection sel coords then
      { selection := some sel
        bgSnapshot := bg?
        surface := surface
        mode := SelectMode.moving
        lastPos := some coords
        startPos := none
        checkpoint := none }
    else
      let base := match bg? with
        | some bg => bg
        | none => surface
      let committed := commitSelection ctx base sel
      { selection := none
        bgSnapshot := none
        surface := committed
        mode := SelectMode.creating
        lastPos := none
        startPos := some coords
        checkpoint := some committed }
  | none =>
    { selection := none
      bgSnapshot := bg?
      surface := surface
      mode := SelectMode.creating
      lastPos := none
      startPos := some coords
      checkpoint := none }

def blankSurface : Surface := fun _ _ => Pixel.transparent

/-- A surface with a single opaque red pixel at the origin, standing for the
pre-gesture content captured in `snapshotRef`. -/
def redDotSurface : Surface :=
  fun i j => if i = 0 ∧ j = 0 then ⟨255, 0, 0, 255⟩ else Pixel.transparent

/-- The canvas as the last marquee repaint of a creation drag leaves it: the
translucent indigo fill (433-434) tints the pixels inside the dragged
rectangle, so the canvas differs from the pre-gesture snapshot there (here at
`(2, 2)`; the exact tint is irrelevant, only that the pixels changed). -/
def marqueeSurface : Surface :=
  fun i j => if i = 2 ∧ j = 2 then ⟨10, 10, 24, 26⟩ else redDotSurface i j

/-! ## C4: the minimum-size rejection (and the creation itself) never runs -/

/-- C4 (failing input).  On a real selection-creation drag, `lastPos.current`
is null at release: the source assigns it only at 368 and 419 (both require a
live selection) and at 385/505 (the pen/eraser/shape path, which 583 nulls
when that gesture ends), never in the creation flow.  So the line-543 guard
fails whatever the drag size: the snapshot restore at 545 does not run — the
marquee-painted canvas is returned untouched, though the claim requires a
3×3 drag to leave the surface unchanged — and no Selection is created,
though the claim requires a 6×6 drag to create one.  The rejection and lift
code at 545-575 exists but is dead.  Closed evaluation at a canvas that
differs from the snapshot where the marquee painted. -/
theorem selection_creation_guard_dead :
    selectCreationEnd initialCtx marqueeSurface (some (0, 0)) none
        (some redDotSurface)
      = { surface := marqueeSurface, selection := none, bgSnapshot := none,
          checkpoint := none } ∧
    marqueeSurface 2 2 ≠ redDotSurface 2 2 :=
  ⟨rfl, by decide⟩

/-! ## C5: no valid lifted region ever exists -/

/-- C5 (failing input).  The only code path that creates a Selection is the
guarded lift in `stopDrawing`, and on every real creation drag `lastPos` is
null (see C4), so the release produces no Selection for any context, canvas,
snapshot and press point.  The clipboard cannot seed one either:
`pasteSelection` needs `clipboardRef`, which only `copySelection` fills,
which itself requires a live selection.  Hence no valid lifted region — and
no `backgroundHole` — ever exists, and the composite lift → move `(0,0)` →
commit that the claim quantifies over can never be performed. -/
theorem lift_never_occurs (ctx : CtxStyle) (canvas : Surface)
    (startPos : Option (Int × Int)) (snapshot : Option Surface) :
    (selectCreationEnd ctx canvas startPos none snapshot).selection = none := by
  cases startPos <;> cases snapshot <;> rfl
/-! ## C8: no corner-handle resize exists -/

/-- A live selection placed at `(50, 50)` with size `100 × 100`. -/
def sel8 : Selection := ⟨fun _ _ => Pixel.transparent, 50, 50, 100, 100⟩

/-- C8 is false as stated: the press at `(45, 45)` is within 10 px of the nw
corner `(50, 50)` of the live selection (squared distance `50 ≤ 100`), and
outside the interior, yet no resize begins — the selection is committed away
(`selection = none`) and a fresh creation drag starts, so no handle can edit
any edge.  `CanvasLayer.tsx` contains no corner hit-test and no resize mode
at all. -/
theorem corner_press_starts_no_resize :
    (((45 : Int) - 50) ^ 2 + ((45 : Int) - 50) ^ 2 ≤ 10 ^ 2) ∧
    ¬ insideSelection sel8 (45, 45) ∧
    (selectPress initialCtx blankSurface (some sel8) (some blankSurface)
      (45, 45)).selection = none ∧
    (selectPress initialCtx blankSurface (some sel8) (some blankSurface)
      (45, 45)).mode = SelectMode.creating := by
  exact ⟨by decide, by decide, rfl, rfl⟩

/-- C8 (amended).  The select tool has exactly two press behaviours on a live
selection: a press inside the placement rectangle starts a move (the
selection, in particular its width and height, is untouched, and every move
step only translates `x` and `y`); a press outside — corners included —
commits the selection and starts a new creation drag.  No resize exists. -/
theorem select_press_move_or_commit (ctx : CtxStyle) (surface : Surface)
    (sel : Selection) (bg? : Option Surface) (coords : Int × Int) :
    (insideSelection sel coords →
      (selectPress ctx surface (some sel) bg? coords).mode = SelectMode.moving ∧
      (selectPress ctx surface (some sel) bg? coords).selection = some sel ∧
      ∀ dx dy, (moveSelection sel dx dy).w = sel.w ∧
        (moveSelection sel dx dy).h = sel.h) ∧
    (¬ insideSelection sel coords →
      (selectPress ctx surface (some sel) bg? coords).selection = none ∧
      (selectPress ctx surface (some sel) bg? coords).mode
        = SelectMode.creating) := by
  constructor
  · intro hin
    unfold selectPress
    dsimp only
    rw [if_pos hin]
    exact ⟨rfl, rfl, fun dx dy => ⟨rfl, rfl⟩⟩
  · intro hout
    unfold selectPress
    dsimp only
    rw [if_neg hout]
    exact ⟨rfl, rfl⟩

/-- Witness for C8 (amended): a press at `(60, 60)` inside `sel8` starts a
move; a press at `(200, 200)` outside commits. -/
theorem select_press_move_or_commit_witness :
    (insideSelection sel8 (60, 60) ∧
      ((selectPress initialCtx blankSurface (some sel8) (some blankSurface)
          (60, 60)).mode = SelectMode.moving ∧
        (selectPress initialCtx blankSurface (some sel8) (some blankSurface)
          (60, 60)).selection = some sel8 ∧
        ∀ dx dy, (moveSelection sel8 dx dy).w = sel8.w ∧
          (moveSelection sel8 dx dy).h = sel8.h)) ∧
    (¬ insideSelection sel8 (200, 200) ∧
      ((selectPress initialCtx blankSurface (some sel8) (some blankSurface)
          (200, 200)).selection = none ∧
        (selectPress initialCtx blankSurface (some sel8) (some blankSurface)
          (200, 200)).mode = SelectMode.creating)) :=
  ⟨⟨by decide,
    (select_press_move_or_commit initialCtx blankSurface sel8 (some blankSurface)
      (60, 60)).1 (by decide)⟩,
   ⟨by decide,
    (select_press_move_or_commit initialCtx blankSurface sel8 (some blankSurface)
      (200, 200)).2 (by decide)⟩⟩

/-! ## Stroke renderer (CanvasLayer.tsx `draw` 461-506, `stopDrawing` 509-531)

Pointer positions are modelled as exact rational coordinates; the path
geometry (which points and midpoints each emitted canvas call uses) is what
the claims are about, so the stroke styling (width, glow) is not repeated
here. -/

structure Pt where
  x : ℚ
  y : ℚ
deriving DecidableEq

/-- One canvas path emission of the stroke pipeline. -/
inductive DrawCmd where
  /-- The call pair `moveTo(mid1); quadraticCurveTo(p2, mid2)` (485-488). -/
  | quadCurve (m1 ctrl m2 : Pt)
  /-- The call pair `moveTo(mid); lineTo(pLast)` at stroke end (525-528). -/
  | segment (a b : Pt)
deriving DecidableEq

def midpoint (p q : Pt) : Pt := ⟨(p.x + q.x) / 2, (p.y + q.y) / 2⟩

/-- The `draw` for PEN/ERASER (461-506): the incoming pointer sample is pushed
onto `pointsRef` unconditionally (462); nothing is emitted until 3 samples
exist (464); from then on each sample emits one quadratic segment between the
midpoints of the last three samples.  (Velocity only modulates `lineWidth`;
the neon particle is a styling overlay; neither changes the path geometry.) -/
def strokeMoveSample (points : List Pt) (p : Pt) : List Pt × List DrawCmd :=
  let pts := points ++ [p]
  if pts.length < 3 then (pts, [])
  else
    let p1 := (pts[pts.length - 3]?).getD p
    let p2 := (pts[pts.length - 2]?).getD p
    let p3 := (pts[pts.length - 1]?).getD p
    let mid1 := midpoint p1 p2
    let mid2 := midpoint p2 p3
    (pts, [DrawCmd.quadCurve mid1 p2 mid2])

/-- The move samples of one gesture processed in order. -/
def strokeProcess (points : List Pt) (samples : List Pt) : List Pt × List DrawCmd :=
  samples.foldl
    (fun acc p =>
      let step := strokeMoveSample acc.1 p
      (step.1, acc.2 ++ step.2))
    (points, [])

/-- The `stopDrawing` for PEN/ERASER (519-529): only when more than two samples
were collected, one closing segment is drawn from the midpoint of the last
two samples to the last sample; otherwise nothing further is drawn. -/
def strokeEndFlush (points : List Pt) : List DrawCmd :=
  if 2 < points.length then
    match points[points.length - 1]?, points[points.length - 2]? with
    | some pLast, some pPrev => [DrawCmd.segment (midpoint pPrev pLast) pLast]
    | _, _ => []
  else []

/-- One full pen/eraser gesture: `startDrawing` seeds `pointsRef` with the
press point (387), each pointer move runs `draw`, and the release runs
`stopDrawing`. -/
def strokeGesture (down : Pt) (moves : List Pt) : List DrawCmd :=
  let processed := strokeProcess [down] moves
  processed.2 ++ strokeEndFlush processed.1

/-! ## C6: no input distance filter exists -/

/-- C6 is false as stated: the move sample `(1, 0)` lies 1 px — well under
the claimed 4 px threshold — from the last accepted sample `(0, 0)`, yet
`draw` appends it to the sample path anyway: the path becomes
`[(0,0), (1,0)]`, not the unchanged `[(0,0)]` the claim requires. -/
theorem close_sample_still_appended :
    (strokeMoveSample [⟨0, 0⟩] ⟨1, 0⟩).1 = [⟨0, 0⟩, ⟨1, 0⟩] ∧
    (strokeMoveSample [⟨0, 0⟩] ⟨1, 0⟩).1 ≠ [⟨0, 0⟩] := by
  constructor
  · rfl
  · decide

/-- C6 (amended).  `draw` performs no distance filtering at all: every
pointer sample of a pen or eraser gesture is appended to the sample path
unconditionally, whatever its distance from the last accepted sample
(`pointsRef.current.push({x, y})` is the first thing the PEN/ERASER branch
does). -/
theorem stroke_samples_appended_unconditionally (points : List Pt) (p : Pt) :
    (strokeMoveSample points p).1 = points ++ [p] := by
  unfold strokeMoveSample
  by_cases hlen : (points ++ [p]).length < 3
  · rw [if_pos hlen]
  · rw [if_neg hlen]

/-! ## C7: stroke-end flush -/

/-- C7 is false as stated: a one-sample gesture draws nothing at all — no
dot — and a two-sample gesture draws nothing at all — no straight segment.
(`stopDrawing` only emits when `pointsRef.current.length > 2`; no dot or
two-point branch exists.) -/
theorem short_stroke_draws_nothing :
    strokeGesture ⟨0, 0⟩ [] = [] ∧ strokeGesture ⟨0, 0⟩ [⟨10, 0⟩] = [] := by
  constructor
  · rfl
  · rfl

/-- C7 (amended).  Nothing is drawn before the 3rd sample: a gesture with at
most two samples in total emits no path command at all (in particular no dot
and no straight two-point segment).  When at least three samples exist, the
stroke ends with one closing segment drawn from the midpoint of the last two
samples — which is exactly the endpoint `mid2` of the last emitted quadratic
— to the final sample. -/
theorem stroke_end_flush (down : Pt) (moves : List Pt) (init : List Pt)
    (pPrev pLast : Pt) :
    (moves.length ≤ 1 → strokeGesture down moves = []) ∧
    (init ≠ [] →
      strokeEndFlush (init ++ [pPrev, pLast])
        = [DrawCmd.segment (midpoint pPrev pLast) pLast]) := by
  constructor
  · intro hlen
    match moves with
    | [] => rfl
    | [m] => rfl
    | m1 :: m2 :: rest => simp at hlen
  · intro hinit
    unfold strokeEndFlush
    have hlen : (init ++ [pPrev, pLast]).length = init.length + 2 := by
      simp
    have hpos : 0 < init.length := List.length_pos.mpr hinit
    rw [if_pos (show 2 < (init ++ [pPrev, pLast]).length by omega)]
    have hget1 : (init ++ [pPrev, pLast])[(init ++ [pPrev, pLast]).length - 1]?
        = some pLast := by
      rw [hlen]
      rw [show init.length + 2 - 1 = init.length + 1 from rfl]
      rw [List.getElem?_append_right (by omega)]
      simp
    have hget2 : (init ++ [pPrev, pLast])[(init ++ [pPrev, pLast]).length - 2]?
        = some pPrev := by
      rw [hlen]
      rw [show init.length + 2 - 2 = init.length from rfl]
      rw [List.getElem?_append_right (by omega)]
      simp
    rw [hget1, hget2]

/-- Witness for C7 (amended): a one-move gesture draws nothing; the flush of
`[(0,0), (2,0), (4,2)]` is the segment from `(3,1)` — the midpoint of the
last two samples — to `(4,2)`. -/
theorem stroke_end_flush_witness :
    ((([⟨2, 0⟩] : List Pt).length ≤ 1 → strokeGesture ⟨0, 0⟩ [⟨2, 0⟩] = []) ∧
      (([⟨0, 0⟩] : List Pt) ≠ [] →
        strokeEndFlush ([⟨0, 0⟩] ++ [⟨2, 0⟩, ⟨4, 2⟩])
          = [DrawCmd.segment (midpoint ⟨2, 0⟩ ⟨4, 2⟩) ⟨4, 2⟩])) ∧
    strokeGesture ⟨0, 0⟩ [⟨2, 0⟩] = [] ∧
    strokeEndFlush ([⟨0, 0⟩] ++ [⟨2, 0⟩, ⟨4, 2⟩])
      = [DrawCmd.segment (midpoint ⟨2, 0⟩ ⟨4, 2⟩) ⟨4, 2⟩] :=
  have h := stroke_end_flush ⟨0, 0⟩ [⟨2, 0⟩] [⟨0, 0⟩] ⟨2, 0⟩ ⟨4, 2⟩
  ⟨h, h.1 (by decide), h.2 (by decide)⟩

/-! ## Trail (laser) renderer (CanvasLayer.tsx 219-280)

`renderLaser` is an animation-frame loop living inside the `[activeTool]`
effect.  Each frame clears the overlay canvas, drops the points older than
300 ms, repaints the surviving polyline, and — according to the captured
`activeTool` of its own closure — either reschedules itself or clears once
more and stops.  The effect body schedules the first frame only when the
tool is LASER, and the effect cleanup runs `cancelAnimationFrame` on the
pending request whenever `activeTool` changes. -/

structure LaserPoint where
  x : Int
  y : Int
  time : Nat
deriving DecidableEq

/-- The 300 ms age filter (230): `now - p.time < 300`.  The clock is
monotone, so `now ≥ p.time` for recorded points and the `Nat` subtraction
agrees with JS. -/
def laserFilter (points : List LaserPoint) (now : Nat) : List LaserPoint :=
  points.filter (fun p => now - p.time < 300)

/-- The polyline painted for one frame (243-263): the consecutive pairs of
the surviving points, drawn only when more than one survives.  Each painted
pair has age `< 300`, hence opacity `1 - age/300 > 0`: every listed segment
is actually visible (the head dot is drawn at full opacity on top). -/
def laserOverlay (points : List LaserPoint) (now : Nat) :
    List (LaserPoint × LaserPoint) :=
  let pts := laserFilter points now
  if 1 < pts.length then pts.zip pts.tail else []

/-- The laser loop as a discrete event system.  `pending = some t` models a
`requestAnimationFrame(renderLaser)` whose closure captured `activeTool = t`
when the effect created it. -/
structure LaserSystem where
  activeTool : Tool
  pending : Option Tool
  overlay : List (LaserPoint × LaserPoint)
  points : List LaserPoint
deriving DecidableEq

/-- A pending animation frame fires at time `now`: `renderLaser` runs with
its captured tool (268-272).  While the captured tool is LASER — and inside
a LASER-effect closure it always is — the frame repaints and reschedules;
the `else` branch that would clear the overlay can only run if a frame fires
with a stale non-LASER capture, which the cleanup makes impossible. -/
def fireFrame (s : LaserSystem) (now : Nat) : LaserSystem :=
  match s.pending with
  | none => s
  | some captured =>
    let pts := laserFilter s.points now
    let ov := laserOverlay s.points now
    if captured = Tool.laser then
      { s with pending := some captured, overlay := ov, points := pts }
    else
      { s with pending := none, overlay := [], points := pts }

/-- A tool switch re-runs the `[activeTool]` effect (275-280): React first
runs the previous cleanup — `cancelAnimationFrame(laserReqRef.current)` —
cancelling the pending frame, then the new effect body schedules a frame
only when the new tool is LASER.  The overlay canvas itself is untouched. -/
def switchTool (s : LaserSystem) (t : Tool) : LaserSystem :=
  { s with
    activeTool := t
    pending := if t = Tool.laser then some t else none }

/-- Two trail points recorded at 0 ms and 10 ms. -/
def demoTrail : List LaserPoint := [⟨10, 10, 0⟩, ⟨20, 20, 10⟩]

/-- The run exhibiting the stuck trail: the loop paints the trail at 50 ms,
then the user switches from the laser to the pen. -/
def stuckRun : LaserSystem :=
  switchTool (fireFrame ⟨Tool.laser, some Tool.laser, [], demoTrail⟩ 50) Tool.pen

/-- C9 (failing input).  The decay half of the claim is what the code does:
a point recorded at t = 0 is dropped by the 300 ms filter at t = 350 (first
two conjuncts, one instance and the general fact used by every frame).  The
self-terminating half is not: after painting a live trail at 50 ms and
switching to the pen at once, the switch cancels the scheduled frame —
the clearing branch of `renderLaser` is unreachable, since its closure
captured `activeTool = LASER` — so nothing is scheduled, and the painted
polyline stays on the overlay canvas forever: no later frame can fire to
clear it, contradicting "the overlay is fully cleared within one frame of
the switch". -/
theorem laser_trail_stuck_after_switch :
    (⟨10, 10, 0⟩ : LaserPoint) ∉ laserFilter demoTrail 350 ∧
    laserFilter demoTrail 350 = [] ∧
    stuckRun.overlay = [(⟨10, 10, 0⟩, ⟨20, 20, 10⟩)] ∧
    stuckRun.pending = none ∧
    (∀ now : Nat, fireFrame stuckRun now = stuckRun) := by
  refine ⟨by decide, by decide, by decide, by decide, ?_⟩
  intro now
  rfl

end MyBoard
